import Mathlib

/-!
Verification of the inkling story runtime core.

Rust strings are modelled as lists of characters. Machine integers are
modelled as Nat (u32, usize) and Int (i32); where the source performs an
operation whose overflow behaviour matters it is made explicit (usize
subtraction is modelled as an Option, the u32-to-i32 cast wraps).
Fallible Rust functions returning Result are modelled with Except, and a
reachable panic is modelled by a dedicated result constructor.
-/

namespace Inkling

/-! ## Characters and string primitives

Rust str operations used by the source, on lists of characters. -/

/-- Whitespace test matching the characters Rust trims for the inputs in scope. -/
def wsb (c : Char) : Bool := c = ' ' || c = '\t' || c = '\n' || c = '\r'

/-- Rust str trim_start. -/
def trimStart (s : List Char) : List Char := s.dropWhile wsb

/-- Rust str trim_end. -/
def trimEnd (s : List Char) : List Char := (s.reverse.dropWhile wsb).reverse

/-- Rust str trim. -/
def trim (s : List Char) : List Char := trimEnd (trimStart s)

/-- Rust str starts_with on a string pattern. -/
def startsWithStr (s pat : List Char) : Bool := pat.isPrefixOf s

/-- Rust str starts_with on a char pattern. -/
def starts_with_char (s : List Char) (c : Char) : Bool :=
  match s.head? with
  | some d => d == c
  | none => false

/-- Rust str ends_with on a char pattern. -/
def ends_with_char (s : List Char) (c : Char) : Bool :=
  match s.getLast? with
  | some d => d == c
  | none => false

/-! ## Data model

The line, choice and story-graph types used by story/process.rs and
story/parse.rs. The line module itself is not part of the sources in
scope; the fields below are the attributes the processed code observes.
The text method and the mutable first text chunk of an internal line are
modelled by the single text field. -/

/-- An internal line: raw text, tags and glue flags. -/
structure InternalLine where
  text : List Char
  tags : List String
  glue_begin : Bool
  glue_end : Bool
deriving DecidableEq, Repr

/-- A processed line surfaced to the caller. -/
structure Line where
  text : List Char
  tags : List String
deriving DecidableEq, Repr

/-- A choice surfaced to the caller, carrying its authored index. -/
structure Choice where
  text : List Char
  tags : List String
  index : Nat
deriving DecidableEq, Repr

/-- The one condition kind the core understands: a visit-count comparison.
The rhs value is an i32 and the ordering a cmp ordering; the flag named
not negates the outcome. -/
inductive Condition where
  | NumVisits (name : String) (rhs_value : Int) (ordering : Ordering) (not : Bool)
deriving DecidableEq, Repr

/-- An internal choice as produced by the line tokenizer. -/
structure InternalChoice where
  selection_text : InternalLine
  display_text : InternalLine
  conditions : List Condition
  is_sticky : Bool
  is_fallback : Bool
deriving DecidableEq, Repr

/-- A choice together with the visit count of its branch. -/
structure ChoiceExtra where
  num_visited : Nat
  choice_data : InternalChoice
deriving DecidableEq, Repr

/-- A stitch: its visit counter (u32) and its content lines. The node
tree construction is done by the external line tokenizer; the content is
kept as the raw lines handed to it. -/
structure Stitch where
  num_visited : Nat
  root : List (List Char)
deriving DecidableEq, Repr

/-- A knot: the default stitch name and the stitch map, modelled as an
association list. -/
structure Knot where
  default_stitch : String
  stitches : List (String × Stitch)
deriving DecidableEq, Repr

/-- The knot collection, modelled as an association list. -/
def Knots := List (String × Knot)

/-- A validated address of a stitch inside a knot. -/
structure Address where
  knot : String
  stitch : String
deriving DecidableEq, Repr

/-- HashMap get, modelled on the association list. -/
def alist_get {α : Type} (m : List (String × α)) (k : String) : Option α :=
  (m.find? (fun p => p.1 = k)).map Prod.snd

/-- Runtime errors, following error/runtime/inkling.rs. Payloads whose
types come from modules outside the sources in scope are omitted. -/
inductive InklingError where
  | Internal
  | InvalidAddress (knot : String) (stitch : Option String)
  | InvalidChoice (selection : Nat) (presented_choices : List Choice)
  | InvalidVariable (name : String)
  | MadeChoiceWithoutChoice
  | OutOfChoices
  | OutOfContent
  | ResumeBeforeStart
  | StartOnStoryInProgress
deriving DecidableEq, Repr

/-! ## story/process.rs: text assembly -/

/-- The glue test of add_line_ending: glued to the next line when a next
line exists and either side carries a glue flag. -/
def line_glue (line : InternalLine) (next_line : Option InternalLine) : Bool :=
  match next_line with
  | some n => line.glue_end || n.glue_begin
  | none => false

/-- The whitespace test of add_line_ending: glued and one of the two raw
texts has a space adjacent to the seam. -/
def line_whitespace (line : InternalLine) (next_line : Option InternalLine) : Bool :=
  line_glue line next_line &&
    (match next_line with
     | some n => ends_with_char line.text ' ' || starts_with_char n.text ' '
     | none => false)

/-- The text rewrite of add_line_ending. When the line is not glued, or
is glued with an adjacent space, the text is trimmed and a space or a
newline is pushed; otherwise the source leaves the text untouched. -/
def add_line_ending_text (line : InternalLine) (next_line : Option InternalLine) : List Char :=
  if !(line_glue line next_line) || line_whitespace line next_line then
    let text := trim line.text
    let text := if line_whitespace line next_line then text ++ [' '] else text
    if !(line_glue line next_line) then text ++ ['\n'] else text
  else line.text

/-- add_line_ending: the source mutates only the first text chunk of the
line, modelled as a functional update of the text field. -/
def add_line_ending (line : InternalLine) (next_line : Option InternalLine) : InternalLine :=
  { line with text := add_line_ending_text line next_line }

/-- The while-let loop of process_buffer: each line is rewritten with a
one-step lookahead at its successor. -/
def applyLineEndings : List InternalLine → List InternalLine
  | [] => []
  | line :: rest => add_line_ending line rest.head? :: applyLineEndings rest

/-- The filter of process_buffer: lines whose trimmed text is empty are
dropped before the lookahead walk. -/
def keptLines (from_buffer : List InternalLine) : List InternalLine :=
  from_buffer.filter (fun line => !(trim line.text).isEmpty)

/-- The retained lines after process_buffer ran, with their rewritten
texts: this is the state the in-place mutation of the source leaves the
surviving internal lines in. -/
def process_internal_lines (from_buffer : List InternalLine) : List InternalLine :=
  applyLineEndings (keptLines from_buffer)

/-- process_buffer: push a processed record per surviving line. -/
def process_buffer (from_buffer : List InternalLine) : List Line :=
  (process_internal_lines from_buffer).map (fun l => { text := l.text, tags := l.tags })

/-! ## story/process.rs: condition evaluation and choice filtering -/

/-- The u32 to i32 cast the source performs on num_visited: values of
the high half wrap to negatives. -/
def u32_as_i32 (n : Nat) : Int :=
  if n % 2 ^ 32 < 2 ^ 31 then ((n % 2 ^ 32 : Nat) : Int)
  else ((n % 2 ^ 32 : Nat) : Int) - 2 ^ 32

/-- Modelled from the spec: the stitch lookup of the story module (not
among the sources in scope). The knot, then the stitch, is looked up in
the collection; a miss is an InvalidAddress error. -/
def get_stitch (address : Address) (knots : Knots) : Except InklingError Stitch :=
  match alist_get knots address.knot with
  | none => .error (.InvalidAddress address.knot (some address.stitch))
  | some k =>
    match alist_get k.stitches address.stitch with
    | none => .error (.InvalidAddress address.knot (some address.stitch))
    | some s => .ok s

/-- Split a character list at every occurrence of the given character. -/
def split_on_char (c : Char) : List Char → List (List Char)
  | [] => [[]]
  | d :: rest =>
    if d = c then [] :: split_on_char c rest
    else
      match split_on_char c rest with
      | [] => [[d]]
      | seg :: segs => (d :: seg) :: segs

/-- Modelled from the spec: the address resolver (not among the sources
in scope). A dotted reference names a knot and a stitch; a bare name is
first tried as a stitch of the current knot, then as a knot, which
resolves to its default stitch; failures are InvalidAddress errors. -/
def from_target_address (name : String) (current_address : Address) (knots : Knots) :
    Except InklingError Address :=
  if name = "" then .error (.InvalidAddress name none)
  else
    match (split_on_char '.' name.toList).map String.mk with
    | [knot_part, stitch_part] =>
      match alist_get knots knot_part with
      | none => .error (.InvalidAddress knot_part (some stitch_part))
      | some k =>
        match alist_get k.stitches stitch_part with
        | none => .error (.InvalidAddress knot_part (some stitch_part))
        | some _ => .ok { knot := knot_part, stitch := stitch_part }
    | [bare] =>
      match (alist_get knots current_address.knot).bind (fun k => alist_get k.stitches bare) with
      | some _ => .ok { knot := current_address.knot, stitch := bare }
      | none =>
        match alist_get knots bare with
        | some k => .ok { knot := bare, stitch := k.default_stitch }
        | none => .error (.InvalidAddress bare none)
    | _ => .error (.InvalidAddress name none)

/-- check_condition: resolve the target, read its visit count as an i32
and compare; the flag named not negates the outcome. -/
def check_condition (condition : Condition) (current_address : Address) (knots : Knots) :
    Except InklingError Bool :=
  match condition with
  | .NumVisits name rhs_value ordering not =>
    match from_target_address name current_address knots with
    | .error e => .error e
    | .ok address =>
      match get_stitch address knots with
      | .error e => .error e
      | .ok st =>
        let num_visits : Int := u32_as_i32 st.num_visited
        let value := compare num_visits rhs_value == ordering
        if not then .ok (!value) else .ok value

/-- The inner loop of check_choices_for_conditions: conditions are
checked in order, stopping at the first false. -/
def check_all_conditions (conditions : List Condition) (current_address : Address)
    (knots : Knots) : Except InklingError Bool :=
  match conditions with
  | [] => .ok true
  | c :: rest =>
    match check_condition c current_address knots with
    | .error e => .error e
    | .ok keep => if !keep then .ok false else check_all_conditions rest current_address knots

/-- check_choices_for_conditions: one keep flag per authored choice. -/
def check_choices_for_conditions (choices : List ChoiceExtra) (current_address : Address)
    (knots : Knots) (keep_only_fallback : Bool) : Except InklingError (List Bool) :=
  match choices with
  | [] => .ok []
  | ce :: rest =>
    match check_all_conditions ce.choice_data.conditions current_address knots with
    | .error e => .error e
    | .ok keep_conditions =>
      let keep := keep_conditions
        && (ce.choice_data.is_sticky || ce.num_visited == 0)
        && (ce.choice_data.is_fallback == keep_only_fallback)
      match check_choices_for_conditions rest current_address knots keep_only_fallback with
      | .error e => .error e
      | .ok rest_checked => .ok (keep :: rest_checked)

/-- The per-choice record built by zip_choices_with_filter_values: the
trimmed selection text, the tags, and the authored index. -/
def make_choice_entry (i : Nat) (ce : ChoiceExtra) : Choice :=
  { text := trim ce.choice_data.selection_text.text,
    tags := ce.choice_data.selection_text.tags,
    index := i }

/-- zip_choices_with_filter_values: each authored choice, paired with
its keep flag. -/
def zip_choices_with_filter_values (choices : List ChoiceExtra) (current_address : Address)
    (knots : Knots) (fallback : Bool) : Except InklingError (List (Bool × Choice)) :=
  match check_choices_for_conditions choices current_address knots fallback with
  | .error e => .error e
  | .ok checked_choices =>
    .ok ((((choices.enum.map (fun p => make_choice_entry p.1 p.2)).zip checked_choices).map
      (fun p => (p.2, p.1))))

/-- get_available_choices: keep exactly the choices whose flag is set. -/
def get_available_choices (choices : List ChoiceExtra) (current_address : Address)
    (knots : Knots) (fallback : Bool) : Except InklingError (List Choice) :=
  match zip_choices_with_filter_values choices current_address knots fallback with
  | .error e => .error e
  | .ok zipped => .ok (zipped.filterMap (fun p => if p.1 then some p.2 else none))

/-- prepare_choices_for_user: the present-to-user mode of the filter. -/
def prepare_choices_for_user (choices : List ChoiceExtra) (current_address : Address)
    (knots : Knots) : Except InklingError (List Choice) :=
  get_available_choices choices current_address knots false

/-- get_fallback_choices: the fallback mode of the filter. -/
def get_fallback_choices (choices : List ChoiceExtra) (current_address : Address)
    (knots : Knots) : Except InklingError (List Choice) :=
  get_available_choices choices current_address knots true

/-! ## story/parse.rs: the structural parser

The constants module and the knot-name reading functions are not among
the sources in scope; markers and name readers are modelled from the
spec. -/

/-- Modelled from the spec: the knot marker constant. -/
def KNOT_MARKER : List Char := ['=', '=']

/-- Modelled from the spec: the stitch marker constant. -/
def STITCH_MARKER : List Char := ['=']

/-- Modelled from the spec: the line comment marker constant. -/
def LINE_COMMENT_MARKER : List Char := ['/', '/']

/-- Modelled from the spec: the todo comment marker constant. -/
def TODO_COMMENT_MARKER : List Char := ['T', 'O', 'D', 'O', ':']

/-- Modelled from the spec: the reserved root name for unnamed knots and
stitches. -/
def ROOT_KNOT_NAME : String := "$ROOT$"

/-- Name errors, following the variants the parser distinguishes. -/
inductive KnotNameError where
  | NoNamePresent
  | InvalidChar
deriving DecidableEq, Repr

/-- Knot-level parse errors. -/
inductive KnotError where
  | Empty
  | InvalidName (kind : KnotNameError)
deriving DecidableEq, Repr

/-- Top-level parse errors. The conversion from a knot error keeps it in
its own variant. -/
inductive ParseError where
  | Empty
  | KnotErr (e : KnotError)
deriving DecidableEq, Repr

/-- The outcome of running a fallible routine that can also panic: the
crash constructor models a reached panic or unreachable branch. -/
inductive RunRes (ε : Type) (α : Type) where
  | ok : α → RunRes ε α
  | err : ε → RunRes ε α
  | crash : RunRes ε α
deriving DecidableEq, Repr

/-- One segment split of Rust str lines: split at every newline. -/
def split_newline (s : List Char) : List (List Char) := split_on_char '\n' s

/-- Rust str lines tolerates a carriage return before the newline. -/
def strip_cr (l : List Char) : List Char :=
  match l.getLast? with
  | some c => if c = '\r' then l.dropLast else l
  | none => l

/-- Rust str lines: newline-separated segments, without a trailing empty
segment, each stripped of a trailing carriage return. -/
def linesOf (s : List Char) : List (List Char) :=
  let segs := split_newline s
  let segs := if segs.getLast? = some [] then segs.dropLast else segs
  segs.map strip_cr

/-- remove_empty_and_comment_lines: first the comment filter, then the
whitespace filter, exactly as the source chains them. The source also
echoes todo lines to standard error, a side effect outside the model. -/
def remove_empty_and_comment_lines (content : List (List Char)) : List (List Char) :=
  (content.filter (fun line =>
      !(startsWithStr line LINE_COMMENT_MARKER || startsWithStr line TODO_COMMENT_MARKER)))
    |>.filter (fun line => !(trim line).isEmpty)

/-- The marker test of divide_lines_at_marker: the trimmed head of the
line starts with the marker. -/
def is_marker_line (marker : List Char) (line : List Char) : Bool :=
  startsWithStr (trimStart line) marker

/-- rposition over the content: the last index holding a marker line. -/
def rposition_marker (marker : List Char) (content : List (List Char)) : Option Nat :=
  match content.reverse.findIdx? (is_marker_line marker) with
  | some j => some (content.length - 1 - j)
  | none => none

/-- The while-let loop of divide_lines_at_marker. The source pushes the
split-off tails back to front and reverses at the end; consing on the
accumulator produces the same final order. The fuel argument bounds the
iteration count; the fuel-exhausted branch coincides with the loop exit
and is never reached when the fuel is at least the content length. -/
def divide_lines_loop (marker : List Char) :
    Nat → List (List Char) → List (List (List Char)) → List (List (List Char))
  | 0, content, buffer => if content.isEmpty then buffer else content :: buffer
  | fuel + 1, content, buffer =>
    match rposition_marker marker content with
    | some i => divide_lines_loop marker fuel (content.take i) (content.drop i :: buffer)
    | none => if content.isEmpty then buffer else content :: buffer

/-- divide_lines_at_marker: split a set of lines where they start with a
marker. -/
def divide_lines_at_marker (content : List (List Char)) (marker : List Char) :
    List (List (List Char)) :=
  divide_lines_loop marker content.length content []

/-- A character allowed inside an identifier. -/
def is_id_char (c : Char) : Bool := c.isAlphanum || c = '_'

/-- A valid knot or stitch identifier: a letter or underscore followed
by letters, digits and underscores. -/
def is_valid_identifier (l : List Char) : Bool :=
  match l with
  | [] => false
  | c :: _ => (c.isAlpha || c = '_') && l.all is_id_char

/-- Drop decorative trailing equals signs of a name line. -/
def drop_trailing_eq (l : List Char) : List Char :=
  (l.reverse.dropWhile (fun c => c = '=')).reverse

/-- Extract the identifier of a marker line: strip the leading equals
signs, the decorative trailing ones, and surrounding whitespace. -/
def read_name_after_marker (t : List Char) : Except KnotError String :=
  let name := trim (drop_trailing_eq (trim (t.dropWhile (fun c => c = '='))))
  if name.isEmpty then .error (.InvalidName .NoNamePresent)
  else if is_valid_identifier name then .ok (String.mk name)
  else .error (.InvalidName .InvalidChar)

/-- Modelled from the spec: read_knot_name of the knot module (not among
the sources in scope). A line without the knot marker, or a marker with
no name, fails with the distinguished no-name-present error. -/
def read_knot_name (line : List Char) : Except KnotError String :=
  let t := trimStart line
  if startsWithStr t KNOT_MARKER then read_name_after_marker t
  else .error (.InvalidName .NoNamePresent)

/-- Modelled from the spec: read_stitch_name of the knot module (not
among the sources in scope). The knot marker takes precedence over the
stitch marker; a missing marker or a marker with no name fails with the
distinguished no-name-present error. -/
def read_stitch_name (line : List Char) : Except KnotError String :=
  let t := trimStart line
  if startsWithStr t KNOT_MARKER then .error (.InvalidName .NoNamePresent)
  else if startsWithStr t STITCH_MARKER then read_name_after_marker t
  else .error (.InvalidName .NoNamePresent)

/-- Modelled from the spec: the stitch content constructor of the knot
module (not among the sources in scope); the node tree construction is
external and the content is kept as the raw lines. It is total, so the
unwrap the source places on it cannot fire in the model. -/
def Stitch.from_lines (lines : List (List Char)) : Stitch :=
  { num_visited := 0, root := lines }

/-- get_knot_name: read the name from the first line. The source
mutates the line vector, removing the name line on success; the model
returns the name together with the remaining lines. -/
def get_knot_name (lines : List (List Char)) (knot_index : Nat) :
    Except KnotError (String × List (List Char)) :=
  match lines.head? with
  | none => .error .Empty
  | some name_line =>
    match knot_index, read_knot_name name_line with
    | _, .ok name => .ok (name, lines.tail)
    | 0, .error (.InvalidName .NoNamePresent) => .ok (ROOT_KNOT_NAME, lines)
    | _, .error e => .error e

/-- get_stitch_name: read the stitch name from the first line, removing
it on success; a missing name yields none with the lines kept. -/
def get_stitch_name (lines : List (List Char)) :
    Except KnotError (Option String × List (List Char)) :=
  match lines.head? with
  | none => .error .Empty
  | some name_line =>
    match read_stitch_name name_line with
    | .ok name => .ok (some name, lines.tail)
    | .error (.InvalidName .NoNamePresent) => .ok (none, lines)
    | .error e => .error e

/-- get_stitch_identifier: a nameless stitch is only legal at index
zero; at a later index the source hits an unreachable branch, modelled
as none. -/
def get_stitch_identifier (name : Option String) (stitch_index : Nat) : Option String :=
  match stitch_index, name with
  | 0, none => some ROOT_KNOT_NAME
  | _, some n => some n
  | _ + 1, none => none

/-- get_stitch_from_lines: name resolution, then content construction. -/
def get_stitch_from_lines (lines : List (List Char)) (stitch_index : Nat) :
    RunRes KnotError (String × Stitch) :=
  match get_stitch_name lines with
  | .error e => .err e
  | .ok (name_opt, rest) =>
    match get_stitch_identifier name_opt stitch_index with
    | none => .crash
    | some stitch_name => .ok (stitch_name, Stitch.from_lines rest)

/-- The enumerated collect over stitch groups of get_knot_from_lines. -/
def parse_stitch_groups (groups : List (List (List Char))) (stitch_index : Nat) :
    RunRes KnotError (List (String × Stitch)) :=
  match groups with
  | [] => .ok []
  | g :: rest =>
    match get_stitch_from_lines g stitch_index with
    | .err e => .err e
    | .crash => .crash
    | .ok s =>
      match parse_stitch_groups rest (stitch_index + 1) with
      | .err e => .err e
      | .crash => .crash
      | .ok ss => .ok (s :: ss)

/-- get_default_stitch_and_hash_map_tuple: the first stitch name becomes
the default; an empty set is a knot error. -/
def get_default_stitch_and_hash_map_tuple (stitches : List (String × Stitch)) :
    Except KnotError (String × List (String × Stitch)) :=
  match stitches.head? with
  | none => .error .Empty
  | some p => .ok (p.1, stitches)

/-- get_knot_from_lines: read the knot name, divide at stitch markers,
parse each stitch group and collect. -/
def get_knot_from_lines (lines : List (List Char)) (knot_index : Nat) :
    RunRes KnotError (String × Knot) :=
  match get_knot_name lines knot_index with
  | .error e => .err e
  | .ok (knot_name, rest) =>
    match parse_stitch_groups (divide_lines_at_marker rest STITCH_MARKER) 0 with
    | .err e => .err e
    | .crash => .crash
    | .ok stitches =>
      match get_default_stitch_and_hash_map_tuple stitches with
      | .error e => .err e
      | .ok (default_stitch, stitch_map) =>
        .ok (knot_name, { default_stitch := default_stitch, stitches := stitch_map })

/-- The enumerated collect over knot groups of read_knots_from_string. -/
def parse_knot_groups (groups : List (List (List Char))) (knot_index : Nat) :
    RunRes KnotError (List (String × Knot)) :=
  match groups with
  | [] => .ok []
  | g :: rest =>
    match get_knot_from_lines g knot_index with
    | .err e => .err e
    | .crash => .crash
    | .ok k =>
      match parse_knot_groups rest (knot_index + 1) with
      | .err e => .err e
      | .crash => .crash
      | .ok ks => .ok (k :: ks)

/-- read_knots_from_string: filter the lines, divide at knot markers,
parse every group, and take the first knot as the story root. -/
def read_knots_from_string (content : List Char) :
    RunRes ParseError (String × List (String × Knot)) :=
  let all_lines := linesOf content
  let content_lines := remove_empty_and_comment_lines all_lines
  let knot_line_sets := divide_lines_at_marker content_lines KNOT_MARKER
  if knot_line_sets.isEmpty then .err ParseError.Empty
  else
    match parse_knot_groups knot_line_sets 0 with
    | .err e => .err (ParseError.KnotErr e)
    | .crash => .crash
    | .ok knots =>
      match knots.head? with
      | none => .err ParseError.Empty
      | some root => .ok (root.1, knots)

/-! ## error/runtime/inkling.rs: the invalid-choice display arm -/

/-- Debug-mode usize subtraction: an underflow is a panic, modelled as
none. -/
def usize_sub (a b : Nat) : Option Nat := if b ≤ a then some (a - b) else none

/-- The InvalidChoice arm of the Display implementation: the maximum
selection index is computed as the presented-choice count minus one on a
usize. -/
def display_invalid_choice (selection : Nat) (presented_choices : List Choice) :
    Option String :=
  match usize_sub presented_choices.length 1 with
  | none => none
  | some max_index =>
    some ("Invalid selection of choice: selection was " ++ toString selection
      ++ " but number of choices was " ++ toString presented_choices.length
      ++ " (maximum selection index is " ++ toString max_index ++ ")")

/-! ## Specification-side definitions used for comparison -/

/-- The emitted text as the specification states it: the trimmed raw
text, then one space exactly when glued with an adjacent space, then a
newline exactly when not glued. -/
def spec_line_text (line : InternalLine) (next_line : Option InternalLine) : List Char :=
  trim line.text
    ++ (if line_whitespace line next_line then [' '] else [])
    ++ (if !(line_glue line next_line) then ['\n'] else [])

/-- The pre-filter drop test as the specification states it: entirely
whitespace, or a comment or todo marker after left-trimming. -/
def spec_drop_line (line : List Char) : Bool :=
  (trim line).isEmpty || startsWithStr (trimStart line) LINE_COMMENT_MARKER
    || startsWithStr (trimStart line) TODO_COMMENT_MARKER

/-! ## Example values used by witnesses -/

/-- A plain unglued line. -/
def exInternalLine : InternalLine := ⟨"hi".toList, [], false, false⟩

/-- A choice with no conditions, not sticky, not fallback. -/
def exInternalChoice : InternalChoice := ⟨exInternalLine, exInternalLine, [], false, false⟩

/-- The example choice with an unvisited branch. -/
def exChoiceExtra : ChoiceExtra := ⟨0, exInternalChoice⟩

/-- An empty current address. -/
def exEmptyAddr : Address := ⟨"", ""⟩

/-- A stitch visited three times. -/
def exStitch : Stitch := { num_visited := 3, root := [] }

/-- One knot holding the example stitch under the root name. -/
def exKnots : Knots := [("knot_name", { default_stitch := "$ROOT$", stitches := [("$ROOT$", exStitch)] })]

/-- The address of the example knot. -/
def exAddr : Address := ⟨"knot_name", "$ROOT$"⟩

/-! ## Theorems -/

/-- C10: the InvalidChoice display arm underflows on an empty
presented-choice list: the maximum-index subtraction panics instead of
producing a string. This refutes the claim that formatting any
InvalidChoice value, the empty list included, yields a string. -/
theorem C10_display_underflows_on_empty :
    display_invalid_choice 0 [] = none := rfl

/-- C9: on the source text consisting of a content line followed by a
bare stitch marker, read_knots_from_string reaches the unreachable
branch of get_stitch_identifier: the stitch group at index one has a
marker but no name, so the run crashes instead of returning an error
value. This refutes the claim that the parser never panics. -/
theorem C9_parser_crashes_on_bare_stitch_marker :
    read_knots_from_string ("text\n=".toList) = RunRes.crash := rfl

/-- C2 counterexample: a line with leading whitespace that is glued to
its successor with no adjacent space keeps its raw text: the emitted
text differs from the trim-then-append form the claim prescribes. -/
theorem C2_counterexample :
    (add_line_ending ⟨"  a".toList, [], false, true⟩
        (some ⟨"b".toList, [], false, false⟩)).text ≠
      spec_line_text ⟨"  a".toList, [], false, true⟩
        (some ⟨"b".toList, [], false, false⟩) := by decide

/-- A whitespace hit implies a glue hit. -/
theorem line_whitespace_imp_glue (line : InternalLine) (next_line : Option InternalLine)
    (h : line_whitespace line next_line = true) : line_glue line next_line = true := by
  unfold line_whitespace at h
  exact (Bool.and_eq_true _ _ ▸ h).1

/-- C2 amended: the emitted text equals the trimmed raw text followed by
one space exactly when glued with an adjacent space and a newline
exactly when not glued, except that a line glued to its successor with
no adjacent space is emitted with its raw text unchanged. -/
theorem C2_line_text_amended (line : InternalLine) (next_line : Option InternalLine) :
    (add_line_ending line next_line).text =
      if line_glue line next_line && !(line_whitespace line next_line) then line.text
      else spec_line_text line next_line := by
  show add_line_ending_text line next_line = _
  unfold add_line_ending_text spec_line_text
  cases hg : line_glue line next_line with
  | false =>
    have hw : line_whitespace line next_line = false := by
      cases hw : line_whitespace line next_line with
      | false => rfl
      | true => rw [line_whitespace_imp_glue line next_line hw] at hg; cases hg
    simp [hg, hw]
  | true =>
    cases hw : line_whitespace line next_line with
    | false => simp [hg, hw]
    | true => simp [hg, hw]

/-- C6 counterexample: a comment line preceded by whitespace survives
the pre-filter, though the claim says marker checks happen after
left-trimming and the line should be dropped. -/
theorem C6_counterexample :
    spec_drop_line ("  // hidden".toList) = true ∧
      remove_empty_and_comment_lines [("  // hidden".toList)] =
        [("  // hidden".toList)] := by decide

/-- C6 amended: a line is dropped by the pre-filter exactly when it is
entirely whitespace or starts, without any left-trimming, with the
comment or the todo marker; leading whitespace before a marker keeps
the line. -/
theorem C6_filter_amended (content : List (List Char)) (line : List Char) :
    line ∈ remove_empty_and_comment_lines content ↔
      line ∈ content ∧
        ¬((trim line).isEmpty = true ∨
          startsWithStr line LINE_COMMENT_MARKER = true ∨
          startsWithStr line TODO_COMMENT_MARKER = true) := by
  unfold remove_empty_and_comment_lines
  simp only [List.mem_filter, Bool.not_eq_true']
  constructor
  · rintro ⟨⟨hmem, hcm⟩, hws⟩
    simp only [Bool.or_eq_false_iff] at hcm
    refine ⟨hmem, ?_⟩
    rintro (h | h | h)
    · rw [h] at hws; cases hws
    · rw [h] at hcm; exact Bool.noConfusion hcm.1
    · rw [h] at hcm; exact Bool.noConfusion hcm.2
  · rintro ⟨hmem, hnot⟩
    push_neg at hnot
    refine ⟨⟨hmem, ?_⟩, ?_⟩
    · simp only [Bool.or_eq_false_iff]
      exact ⟨Bool.eq_false_iff.mpr hnot.2.1, Bool.eq_false_iff.mpr hnot.2.2⟩
    · exact Bool.eq_false_iff.mpr hnot.1

/-- The condition loop yields true exactly when every condition
evaluates to ok true. -/
theorem check_all_ok_true_iff (conditions : List Condition) (addr : Address) (knots : Knots)
    (b : Bool) (h : check_all_conditions conditions addr knots = .ok b) :
    b = true ↔ ∀ c ∈ conditions, check_condition c addr knots = .ok true := by
  induction conditions generalizing b with
  | nil =>
    unfold check_all_conditions at h
    cases h
    simp
  | cons c rest ih =>
    unfold check_all_conditions at h
    cases hc : check_condition c addr knots with
    | error e => rw [hc] at h; cases h
    | ok keep =>
      rw [hc] at h
      dsimp only [] at h
      cases keep with
      | false =>
        rw [show (!false) = true from rfl, if_pos rfl] at h
        cases h
        simp only [List.forall_mem_cons, hc]
        constructor
        · intro habs; cases habs
        · rintro ⟨h1, _⟩; cases h1
      | true =>
        rw [show (!true) = false from rfl, if_neg Bool.false_ne_true] at h
        rw [List.forall_mem_cons, ih _ h]
        simp [hc]

/-- C1: a keep flag computed by check_choices_for_conditions is true
exactly when every condition of the choice evaluates to true, the
choice is sticky or unvisited, and its fallback flag equals the queried
mode. In fallback mode a non-sticky fallback choice that has been
visited therefore gets a false flag. -/
theorem C1_choice_filter (choices : List ChoiceExtra) (addr : Address) (knots : Knots)
    (keep_only_fallback : Bool) (result : List Bool)
    (h : check_choices_for_conditions choices addr knots keep_only_fallback = .ok result) :
    result.length = choices.length ∧
    ∀ i (hi : i < choices.length) (hr : i < result.length),
      result.get ⟨i, hr⟩ = true ↔
        ((∀ c ∈ (choices.get ⟨i, hi⟩).choice_data.conditions,
            check_condition c addr knots = .ok true) ∧
         ((choices.get ⟨i, hi⟩).choice_data.is_sticky = true ∨
            (choices.get ⟨i, hi⟩).num_visited = 0) ∧
         (choices.get ⟨i, hi⟩).choice_data.is_fallback = keep_only_fallback) := by
  induction choices generalizing result with
  | nil =>
    unfold check_choices_for_conditions at h
    cases h
    exact ⟨rfl, fun i hi => absurd hi (Nat.not_lt_zero i)⟩
  | cons ce rest ih =>
    unfold check_choices_for_conditions at h
    cases hall : check_all_conditions ce.choice_data.conditions addr knots with
    | error e => rw [hall] at h; cases h
    | ok keep_conditions =>
      rw [hall] at h
      dsimp only [] at h
      cases hrec : check_choices_for_conditions rest addr knots keep_only_fallback with
      | error e => rw [hrec] at h; cases h
      | ok rest_checked =>
        rw [hrec] at h
        dsimp only [] at h
        cases h
        obtain ⟨ihlen, ihget⟩ := ih rest_checked hrec
        refine ⟨by simp [ihlen], ?_⟩
        intro i hi hr
        cases i with
        | zero =>
          simp only [List.get]
          rw [Bool.and_eq_true, Bool.and_eq_true]
          rw [check_all_ok_true_iff _ _ _ _ hall]
          constructor
          · rintro ⟨⟨hcond, hsv⟩, hfb⟩
            refine ⟨hcond, ?_, by simpa using hfb⟩
            rcases Bool.or_eq_true _ _ ▸ hsv with h1 | h1
            · exact Or.inl h1
            · exact Or.inr (by simpa using h1)
          · rintro ⟨hcond, hsv, hfb⟩
            refine ⟨⟨hcond, ?_⟩, by simpa using hfb⟩
            rcases hsv with h1 | h1
            · simp [h1]
            · simp [h1]
        | succ n =>
          exact ihget n (Nat.lt_of_succ_lt_succ hi) (Nat.lt_of_succ_lt_succ hr)

/-- C1 witness: on one unvisited unconditional non-fallback choice in
present-to-user mode the filter yields exactly one keep flag. -/
theorem C1_witness : ([true] : List Bool).length = [exChoiceExtra].length :=
  (C1_choice_filter [exChoiceExtra] exEmptyAddr [] false [true] rfl).1

/-- Any error from the modelled address resolver is an InvalidAddress
value. -/
theorem from_target_address_error_shape (name : String) (addr : Address) (knots : Knots)
    (e : InklingError) (h : from_target_address name addr knots = .error e) :
    ∃ k os, e = .InvalidAddress k os := by
  unfold from_target_address at h
  split at h
  · cases h; exact ⟨name, none, rfl⟩
  · split at h
    · split at h
      · cases h; exact ⟨_, _, rfl⟩
      · split at h
        · cases h; exact ⟨_, _, rfl⟩
        · cases h
    · split at h
      · cases h
      · split at h
        · cases h
        · cases h; exact ⟨_, _, rfl⟩
    · cases h; exact ⟨name, none, rfl⟩

/-- Any error from the modelled stitch lookup is an InvalidAddress
value. -/
theorem get_stitch_error_shape (addr : Address) (knots : Knots)
    (e : InklingError) (h : get_stitch addr knots = .error e) :
    ∃ k os, e = .InvalidAddress k os := by
  unfold get_stitch at h
  split at h
  · cases h; exact ⟨_, _, rfl⟩
  · split at h
    · cases h; exact ⟨_, _, rfl⟩
    · cases h

/-- A visit count below the i32 range is unchanged by the cast. -/
theorem u32_as_i32_small (n : Nat) (h : n < 2 ^ 31) : u32_as_i32 n = (n : Int) := by
  unfold u32_as_i32
  have hm : n % 2 ^ 32 = n := Nat.mod_eq_of_lt (lt_trans h (by norm_num))
  rw [hm, if_pos h]

/-- C4: evaluating a NumVisits condition compares the visit count of
the resolved stitch, read as a signed integer, against the right-hand
side under the given ordering, negating when the negate flag is set;
when the target does not resolve to an existing knot and stitch the
evaluation returns an InvalidAddress error instead of a boolean. -/
theorem C4_check_num_visits (name : String) (rhs : Int) (ordering : Ordering) (not : Bool)
    (current_address : Address) (knots : Knots) :
    (∀ a st, from_target_address name current_address knots = .ok a →
       get_stitch a knots = .ok st → st.num_visited < 2 ^ 31 →
       check_condition (.NumVisits name rhs ordering not) current_address knots =
         .ok (if not then !(compare ((st.num_visited : Nat) : Int) rhs == ordering)
              else (compare ((st.num_visited : Nat) : Int) rhs == ordering))) ∧
    (∀ e, from_target_address name current_address knots = .error e →
       ∃ k os, check_condition (.NumVisits name rhs ordering not) current_address knots =
         .error (.InvalidAddress k os)) ∧
    (∀ a e, from_target_address name current_address knots = .ok a →
       get_stitch a knots = .error e →
       ∃ k os, check_condition (.NumVisits name rhs ordering not) current_address knots =
         .error (.InvalidAddress k os)) := by
  refine ⟨?_, ?_, ?_⟩
  · intro a st hfta hgs hlt
    simp only [check_condition]
    rw [hfta]
    dsimp only []
    rw [hgs]
    dsimp only []
    rw [u32_as_i32_small st.num_visited hlt]
    cases not <;> rfl
  · intro e hfta
    obtain ⟨k, os, he⟩ := from_target_address_error_shape name current_address knots e hfta
    refine ⟨k, os, ?_⟩
    simp only [check_condition]
    rw [hfta]
    dsimp only []
    rw [he]
  · intro a e hfta hgs
    obtain ⟨k, os, he⟩ := get_stitch_error_shape a knots e hgs
    refine ⟨k, os, ?_⟩
    simp only [check_condition]
    rw [hfta]
    dsimp only []
    rw [hgs]
    dsimp only []
    rw [he]

/-- C4 witness: a greater-than condition on a knot visited three times
with right-hand side two evaluates on the example story. -/
theorem C4_witness :
    check_condition (.NumVisits "knot_name" 2 Ordering.gt false) exAddr exKnots =
      .ok (if false then !(compare ((exStitch.num_visited : Nat) : Int) 2 == Ordering.gt)
           else (compare ((exStitch.num_visited : Nat) : Int) 2 == Ordering.gt)) :=
  (C4_check_num_visits "knot_name" 2 Ordering.gt false exAddr exKnots).1
    ⟨"knot_name", "$ROOT$"⟩ exStitch rfl rfl (by decide)

/-- Keeping the entries of a list flagged true in a parallel boolean
list is a sublist of the original list. -/
theorem filter_zip_sublist {α : Type} (l : List α) (bs : List Bool) :
    ((((l.zip bs).map (fun p => (p.2, p.1))).filterMap
        (fun p => if p.1 then some p.2 else none))).Sublist l := by
  induction l generalizing bs with
  | nil => simp
  | cons a t ih =>
    cases bs with
    | nil => simp
    | cons b bt =>
      cases b with
      | false =>
        simp only [List.zip_cons_cons, List.map_cons, List.filterMap_cons]
        rw [if_neg Bool.false_ne_true]
        exact (ih bt).cons a
      | true =>
        simp only [List.zip_cons_cons, List.map_cons, List.filterMap_cons]
        rw [if_pos trivial]
        exact (ih bt).cons₂ a

/-- C5: every choice returned by the filter carries as its index its
position in the authored list: the result is a sublist of the authored
choice records built with authored positions, and reading any returned
choice back at its own index recovers it. -/
theorem C5_authored_indices (choices : List ChoiceExtra) (addr : Address) (knots : Knots)
    (fallback : Bool) (result : List Choice)
    (h : get_available_choices choices addr knots fallback = .ok result) :
    result.Sublist (choices.enum.map (fun p => make_choice_entry p.1 p.2)) ∧
    ∀ c ∈ result, ∃ hc : c.index < choices.length,
      c = make_choice_entry c.index (choices.get ⟨c.index, hc⟩) := by
  unfold get_available_choices at h
  cases hz : zip_choices_with_filter_values choices addr knots fallback with
  | error e => rw [hz] at h; cases h
  | ok zipped =>
    rw [hz] at h
    cases h
    unfold zip_choices_with_filter_values at hz
    cases hcc : check_choices_for_conditions choices addr knots fallback with
    | error e => rw [hcc] at hz; cases hz
    | ok checked =>
      rw [hcc] at hz
      cases hz
      have hsub := filter_zip_sublist
        (choices.enum.map (fun p => make_choice_entry p.1 p.2)) checked
      refine ⟨hsub, ?_⟩
      intro c hc
      have hmem := hsub.subset hc
      rw [List.mem_map] at hmem
      obtain ⟨p, hp, hpc⟩ := hmem
      rw [List.mem_enum_iff_getElem?] at hp
      rcases List.getElem?_eq_some.mp hp with ⟨hlt, hget⟩
      subst hpc
      refine ⟨hlt, ?_⟩
      show make_choice_entry p.1 p.2 = make_choice_entry p.1 (choices.get ⟨p.1, hlt⟩)
      rw [List.get_eq_getElem, hget]

/-- C5 witness: on one unconditional choice the returned list is the
authored record list itself. -/
theorem C5_witness : [make_choice_entry 0 exChoiceExtra].Sublist
    ([exChoiceExtra].enum.map (fun p => make_choice_entry p.1 p.2)) :=
  (C5_authored_indices [exChoiceExtra] exEmptyAddr [] false
    [make_choice_entry 0 exChoiceExtra] rfl).1

/-- The divide loop never returns an empty group list when it starts
from nonempty content or a nonempty accumulator. -/
theorem divide_lines_loop_ne_nil (marker : List Char) (fuel : Nat) :
    ∀ content buffer, content ≠ [] ∨ buffer ≠ [] →
      divide_lines_loop marker fuel content buffer ≠ [] := by
  induction fuel with
  | zero =>
    intro content buffer h
    unfold divide_lines_loop
    cases content with
    | nil =>
      rcases h with h | h
      · exact absurd rfl h
      · simpa using h
    | cons a t => simp
  | succ n ih =>
    intro content buffer h
    unfold divide_lines_loop
    cases hr : rposition_marker marker content with
    | some i => exact ih _ _ (Or.inr (by simp))
    | none =>
      cases content with
      | nil =>
        rcases h with h | h
        · exact absurd rfl h
        · simpa using h
      | cons a t => simp

/-- Dividing nonempty content yields at least one group. -/
theorem divide_lines_at_marker_ne_nil (content : List (List Char)) (marker : List Char)
    (h : content ≠ []) : divide_lines_at_marker content marker ≠ [] :=
  divide_lines_loop_ne_nil marker content.length content [] (Or.inl h)

/-- A successful collect over knot groups has one knot per group. -/
theorem parse_knot_groups_length (groups : List (List (List Char))) (knot_index : Nat)
    (l : List (String × Knot)) (h : parse_knot_groups groups knot_index = .ok l) :
    l.length = groups.length := by
  induction groups generalizing knot_index l with
  | nil => unfold parse_knot_groups at h; cases h; rfl
  | cons g rest ih =>
    unfold parse_knot_groups at h
    cases hg : get_knot_from_lines g knot_index with
    | err e => rw [hg] at h; cases h
    | crash => rw [hg] at h; cases h
    | ok k =>
      rw [hg] at h
      dsimp only [] at h
      cases hrest : parse_knot_groups rest (knot_index + 1) with
      | err e => rw [hrest] at h; cases h
      | crash => rw [hrest] at h; cases h
      | ok ks =>
        rw [hrest] at h
        cases h
        simp [ih (knot_index + 1) ks hrest]

/-- C7: read_knots_from_string reports the empty parse error exactly
when no line of the source survives the empty-and-comment pre-filter. -/
theorem C7_empty_iff_nothing_survives (content : List Char) :
    read_knots_from_string content = .err ParseError.Empty ↔
      remove_empty_and_comment_lines (linesOf content) = [] := by
  constructor
  · intro h
    by_contra hne
    have hdiv := divide_lines_at_marker_ne_nil
      (remove_empty_and_comment_lines (linesOf content)) KNOT_MARKER hne
    unfold read_knots_from_string at h
    rw [if_neg (by simpa using hdiv)] at h
    cases hpk : parse_knot_groups
        (divide_lines_at_marker (remove_empty_and_comment_lines (linesOf content)) KNOT_MARKER)
        0 with
    | err e => rw [hpk] at h; dsimp only [] at h; cases h
    | crash => rw [hpk] at h; cases h
    | ok knots =>
      rw [hpk] at h
      dsimp only [] at h
      have hlen := parse_knot_groups_length _ _ _ hpk
      cases hk : knots.head? with
      | none =>
        rw [List.head?_eq_none_iff] at hk
        rw [hk] at hlen
        exact hdiv (List.length_eq_zero.mp hlen.symm)
      | some root => rw [hk] at h; cases h
  · intro h
    unfold read_knots_from_string
    dsimp only []
    rw [h]
    rfl

/-- The head surviving a dropWhile fails the predicate. -/
theorem dropWhile_eq_cons_head_false {p : Char → Bool} {l : List Char} {a : Char}
    {t : List Char} (h : l.dropWhile p = a :: t) : p a = false := by
  induction l with
  | nil => cases h
  | cons x xs ih =>
    rw [List.dropWhile_cons] at h
    by_cases hp : p x = true
    · rw [if_pos hp] at h
      exact ih h
    · rw [if_neg hp] at h
      cases h
      exact Bool.eq_false_iff.mpr hp

/-- Trimming the end of a list leaves a prefix of it. -/
theorem trimEnd_isPrefix (y : List Char) : trimEnd y <+: y := by
  rw [← List.reverse_suffix]
  unfold trimEnd
  rw [List.reverse_reverse]
  exact List.dropWhile_suffix wsb

/-- The first character of a trimmed list is not whitespace. -/
theorem trim_head_not_ws {s : List Char} {a : Char} {t : List Char}
    (h : trim s = a :: t) : wsb a = false := by
  obtain ⟨r, hr⟩ := trimEnd_isPrefix (trimStart s)
  unfold trim at h
  rw [h] at hr
  apply dropWhile_eq_cons_head_false (l := s) (t := t ++ r)
  unfold trimStart at hr
  rw [← hr]
  rfl

/-- The last character of a trimmed list is not whitespace. -/
theorem trim_getLast_not_ws {s : List Char} {a : Char}
    (h : (trim s).getLast? = some a) : wsb a = false := by
  unfold trim trimEnd at h
  rw [List.getLast?_reverse] at h
  cases hd : (trimStart s).reverse.dropWhile wsb with
  | nil => rw [hd] at h; cases h
  | cons b bt =>
    rw [hd] at h
    cases h
    exact dropWhile_eq_cons_head_false hd

/-- Appending one whitespace character to a trimmed list does not
change its trim. -/
theorem trim_append_ws (s : List Char) (c : Char) (hc : wsb c = true) :
    trim (trim s ++ [c]) = trim s := by
  cases h : trim s with
  | nil =>
    show trim [c] = []
    unfold trim trimStart trimEnd
    rw [List.dropWhile_cons, if_pos hc]
    rfl
  | cons a t =>
    have ha : wsb a = false := trim_head_not_ws h
    have hstart : trimStart ((a :: t) ++ [c]) = (a :: t) ++ [c] := by
      unfold trimStart
      rw [List.cons_append, List.dropWhile_cons, if_neg (by rw [ha]; exact Bool.false_ne_true)]
    obtain ⟨b, hb⟩ : ∃ b, (a :: t).getLast? = some b :=
      ⟨(a :: t).getLast (by simp), List.getLast?_eq_getLast_of_ne_nil (by simp)⟩
    have hbw : wsb b = false := trim_getLast_not_ws (h ▸ hb)
    have hrevhead : (a :: t).reverse.head? = some b := by
      rw [List.head?_reverse]; exact hb
    show trim ((a :: t) ++ [c]) = a :: t
    unfold trim
    rw [hstart]
    unfold trimEnd
    rw [List.reverse_append, List.reverse_singleton, List.singleton_append,
      List.dropWhile_cons, if_pos hc]
    cases hrev : (a :: t).reverse with
    | nil => rw [hrev] at hrevhead; cases hrevhead
    | cons b' rt =>
      rw [hrev] at hrevhead
      cases hrevhead
      rw [List.dropWhile_cons, if_neg (by rw [hbw]; exact Bool.false_ne_true), ← hrev,
        List.reverse_reverse]

/-- A trimmed-plus-suffix list never starts with a space when the trim
is nonempty. -/
theorem starts_space_trim_append (s : List Char) (xs : List Char) (h : trim s ≠ []) :
    starts_with_char (trim s ++ xs) ' ' = false := by
  cases ht : trim s with
  | nil => exact absurd ht h
  | cons a t =>
    have ha : wsb a = false := trim_head_not_ws ht
    have hne : a ≠ ' ' := by
      intro he
      rw [he] at ha
      cases ha
    unfold starts_with_char
    rw [List.cons_append]
    simp [hne]

/-- Ending character of an append of a singleton. -/
theorem ends_with_char_append (l : List Char) (c x : Char) :
    ends_with_char (l ++ [c]) x = (c == x) := by
  unfold ends_with_char
  rw [List.getLast?_concat]

/-- The last character of a list is one of its members. -/
theorem getLast?_mem {l : List Char} {a : Char} (h : l.getLast? = some a) : a ∈ l := by
  obtain ⟨hne, hx⟩ := List.mem_getLast?_eq_getLast (by simpa using h)
  rw [hx]
  exact l.getLast_mem hne

/-- A list not containing the newline character does not end with it. -/
theorem ends_nl_no_newline {l : List Char} (h : '\n' ∉ l) :
    ends_with_char l '\n' = false := by
  unfold ends_with_char
  cases hl : l.getLast? with
  | none => rfl
  | some d =>
    have hd : d ∈ l := getLast?_mem hl
    have : d ≠ '\n' := fun he => h (he ▸ hd)
    simp [this]

/-- Case form of the text rewrite: raw text when glued without an
adjacent space, otherwise the trimmed text with its space and newline
suffixes. -/
theorem add_line_ending_text_cases (line : InternalLine) (next_line : Option InternalLine) :
    add_line_ending_text line next_line =
      if line_glue line next_line && !(line_whitespace line next_line) then line.text
      else trim line.text
        ++ (if line_whitespace line next_line then [' '] else [])
        ++ (if !(line_glue line next_line) then ['\n'] else []) := by
  unfold add_line_ending_text
  cases hg : line_glue line next_line with
  | false =>
    have hw : line_whitespace line next_line = false := by
      cases hw : line_whitespace line next_line with
      | false => rfl
      | true => rw [line_whitespace_imp_glue line next_line hw] at hg; cases hg
    simp [hg, hw]
  | true =>
    cases hw : line_whitespace line next_line with
    | false => simp [hg, hw]
    | true => simp [hg, hw]

/-- Position lookup into the processed list: each entry is the rewrite
of the same input entry, looking ahead at its successor. -/
theorem applyLineEndings_get? (ls : List InternalLine) (i : Nat) :
    (applyLineEndings ls).get? i =
      (ls.get? i).map (fun l => add_line_ending l (ls.get? (i + 1))) := by
  induction ls generalizing i with
  | nil => simp [applyLineEndings]
  | cons l rest ih =>
    cases i with
    | zero =>
      show (applyLineEndings (l :: rest)).get? 0 = _
      unfold applyLineEndings
      rw [List.get?_cons_zero, List.get?_cons_zero, List.get?_cons_succ,
        Option.map_some', List.get?_zero]
    | succ n =>
      show (applyLineEndings (l :: rest)).get? (n + 1) = _
      unfold applyLineEndings
      rw [List.get?_cons_succ, ih n, List.get?_cons_succ, List.get?_cons_succ]

/-- The processed list has one entry per surviving line. -/
theorem applyLineEndings_length (ls : List InternalLine) :
    (applyLineEndings ls).length = ls.length := by
  induction ls with
  | nil => rfl
  | cons l rest ih => unfold applyLineEndings; simp [ih]

/-- Whether a rewritten text ends with a newline is decided exactly by
the glue test, for lines whose raw text holds no newline. -/
theorem ends_nl_ale (line : InternalLine) (next_line : Option InternalLine)
    (h : '\n' ∉ line.text) :
    ends_with_char (add_line_ending_text line next_line) '\n' =
      !(line_glue line next_line) := by
  rw [add_line_ending_text_cases]
  cases hg : line_glue line next_line with
  | false =>
    have hw : line_whitespace line next_line = false := by
      cases hw : line_whitespace line next_line with
      | false => rfl
      | true => rw [line_whitespace_imp_glue line next_line hw] at hg; cases hg
    rw [hw]
    simp only [Bool.false_and, if_neg Bool.false_ne_true, Bool.not_false, if_pos rfl,
      if_true, List.append_nil]
    rw [ends_with_char_append]
    rfl
  | true =>
    cases hw : line_whitespace line next_line with
    | true =>
      simp only [Bool.not_true, Bool.and_false, if_neg Bool.false_ne_true, if_pos rfl,
        if_true, List.append_nil]
      rw [ends_with_char_append]
      rfl
    | false =>
      simp only [Bool.not_false, Bool.and_true, if_pos rfl, if_true]
      rw [ends_nl_no_newline h]
      rfl

/-- C3: for a buffer whose raw texts hold no newline character, any two
adjacent surviving lines A and B satisfy: the processed text of A ends
with a newline exactly when neither the end glue of A nor the begin
glue of B is set; and the last processed line always ends with a
newline. -/
theorem C3_glue_exclusion (from_buffer : List InternalLine)
    (hnl : ∀ l ∈ from_buffer, '\n' ∉ l.text) :
    (∀ i A B P, (keptLines from_buffer).get? i = some A →
        (keptLines from_buffer).get? (i + 1) = some B →
        (process_buffer from_buffer).get? i = some P →
        (ends_with_char P.text '\n' = true ↔
          ¬(A.glue_end = true ∨ B.glue_begin = true))) ∧
    (∀ P, (process_buffer from_buffer).getLast? = some P →
        ends_with_char P.text '\n' = true) := by
  have hkept : ∀ l ∈ keptLines from_buffer, '\n' ∉ l.text := by
    intro l hl
    exact hnl l (List.mem_of_mem_filter hl)
  constructor
  · intro i A B P hA hB hP
    unfold process_buffer process_internal_lines at hP
    rw [List.get?_map, applyLineEndings_get? (keptLines from_buffer) i, hA, hB] at hP
    rw [Option.map_some'] at hP
    have hAin : '\n' ∉ A.text := hkept A (List.get?_mem hA)
    cases hP
    show ends_with_char (add_line_ending_text A (some B)) '\n' = true ↔ _
    rw [ends_nl_ale A (some B) hAin]
    show (!(A.glue_end || B.glue_begin)) = true ↔ _
    simp [Bool.or_eq_true, not_or]
  · intro P hP
    unfold process_buffer process_internal_lines at hP
    rw [List.getLast?_eq_getElem?] at hP
    rw [← List.get?_eq_getElem?] at hP
    have hlen : (List.map (fun l => ({ text := l.text, tags := l.tags } : Line))
        (applyLineEndings (keptLines from_buffer))).length = (keptLines from_buffer).length := by
      rw [List.length_map, applyLineEndings_length]
    rw [hlen] at hP
    set n := (keptLines from_buffer).length with hn
    have hpos : 0 < n := by
      by_contra hle
      have h0 : n = 0 := Nat.eq_zero_of_not_pos hle
      have : keptLines from_buffer = [] := List.length_eq_zero.mp h0
      rw [List.get?_map, applyLineEndings_get?] at hP
      rw [this] at hP
      simp [List.get?] at hP
    rw [List.get?_map, applyLineEndings_get?] at hP
    have hnone : (keptLines from_buffer).get? (n - 1 + 1) = none := by
      rw [Nat.sub_add_cancel hpos]
      exact List.get?_eq_none.mpr (le_refl n)
    rw [hnone] at hP
    cases hA : (keptLines from_buffer).get? (n - 1) with
    | none => rw [hA] at hP; cases hP
    | some A =>
      rw [hA] at hP
      rw [Option.map_some'] at hP
      cases hP
      show ends_with_char (add_line_ending_text A none) '\n' = true
      rw [ends_nl_ale A none (hkept A (List.get?_mem hA))]
      rfl

/-- C3 witness: a two-line buffer with end glue on the first line, on
which the last processed line ends with a newline. -/
theorem C3_witness :
    ends_with_char (("b\n".toList : List Char)) '\n' = true :=
  (C3_glue_exclusion
      [⟨"a".toList, [], false, true⟩, ⟨"b".toList, [], false, false⟩]
      (by decide)).2
    ⟨"b\n".toList, []⟩ (by rfl)

/-- An unglued line is rewritten to its trimmed text plus a newline. -/
theorem ale_text_of_glue_false (line : InternalLine) (next_line : Option InternalLine)
    (hg : line_glue line next_line = false) :
    add_line_ending_text line next_line = trim line.text ++ ['\n'] := by
  have hw : line_whitespace line next_line = false := by
    cases hw2 : line_whitespace line next_line with
    | false => rfl
    | true => rw [line_whitespace_imp_glue line next_line hw2] at hg; cases hg
  rw [add_line_ending_text_cases, hg, hw]
  simp

/-- A glued line with an adjacent space is rewritten to its trimmed
text plus one space. -/
theorem ale_text_of_ws_true (line : InternalLine) (next_line : Option InternalLine)
    (hw : line_whitespace line next_line = true) :
    add_line_ending_text line next_line = trim line.text ++ [' '] := by
  have hg := line_whitespace_imp_glue line next_line hw
  rw [add_line_ending_text_cases, hg, hw]
  simp

/-- A glued line with no adjacent space keeps its raw text. -/
theorem ale_text_of_glue_true_ws_false (line : InternalLine) (next_line : Option InternalLine)
    (hg : line_glue line next_line = true) (hw : line_whitespace line next_line = false) :
    add_line_ending_text line next_line = line.text := by
  rw [add_line_ending_text_cases, hg, hw]
  simp

/-- The rewrite keeps the trimmed text nonempty. -/
theorem trim_ale_text_ne_nil (line : InternalLine) (next_line : Option InternalLine)
    (h : trim line.text ≠ []) : trim (add_line_ending_text line next_line) ≠ [] := by
  by_cases hg : line_glue line next_line = true
  · by_cases hw : line_whitespace line next_line = true
    · rw [ale_text_of_ws_true line next_line hw, trim_append_ws line.text ' ' (by decide)]
      exact h
    · rw [ale_text_of_glue_true_ws_false line next_line hg (Bool.eq_false_iff.mpr hw)]
      exact h
  · rw [ale_text_of_glue_false line next_line (Bool.eq_false_iff.mpr hg),
      trim_append_ws line.text '\n' (by decide)]
    exact h

/-- The rewrite never introduces a leading space on a line that did not
start with one. -/
theorem starts_space_ale (line : InternalLine) (next_line : Option InternalLine)
    (hn : trim line.text ≠ []) (h : starts_with_char line.text ' ' = false) :
    starts_with_char (add_line_ending_text line next_line) ' ' = false := by
  rw [add_line_ending_text_cases]
  by_cases hc : (line_glue line next_line && !(line_whitespace line next_line)) = true
  · rw [if_pos hc]
    exact h
  · rw [if_neg hc, List.append_assoc]
    exact starts_space_trim_append line.text _ hn

/-- The glue test is insensitive to the text rewrite of both sides. -/
theorem line_glue_ale (l n : InternalLine) (m : Option InternalLine) :
    line_glue (add_line_ending l (some n)) (some (add_line_ending n m)) =
      line_glue l (some n) := rfl

/-- Rewriting a final line twice gives the same text as once. -/
theorem ale_none_fixed (l : InternalLine) :
    add_line_ending (add_line_ending l none) none = add_line_ending l none := by
  have h1 : add_line_ending_text l none = trim l.text ++ ['\n'] :=
    ale_text_of_glue_false l none rfl
  have htext : add_line_ending_text (add_line_ending l none) none =
      add_line_ending_text l none := by
    rw [ale_text_of_glue_false (add_line_ending l none) none rfl]
    show trim (add_line_ending_text l none) ++ ['\n'] = _
    rw [h1, trim_append_ws l.text '\n' (by decide)]
  show ({ add_line_ending l none with
      text := add_line_ending_text (add_line_ending l none) none } : InternalLine) =
    add_line_ending l none
  rw [htext]
  rfl

/-- Rewriting an already rewritten line against its already rewritten
successor changes nothing, as long as the successor survived the empty
filter. -/
theorem ale_processed_fixed (l n : InternalLine) (m : Option InternalLine)
    (hn : trim n.text ≠ []) :
    add_line_ending (add_line_ending l (some n)) (some (add_line_ending n m)) =
      add_line_ending l (some n) := by
  have htext : add_line_ending_text (add_line_ending l (some n)) (some (add_line_ending n m)) =
      add_line_ending_text l (some n) := by
    by_cases hg : line_glue l (some n) = true
    · by_cases hw : line_whitespace l (some n) = true
      · have h1 := ale_text_of_ws_true l (some n) hw
        have hg2 : line_glue (add_line_ending l (some n)) (some (add_line_ending n m)) =
            true := by rw [line_glue_ale]; exact hg
        have hends : ends_with_char (add_line_ending l (some n)).text ' ' = true := by
          show ends_with_char (add_line_ending_text l (some n)) ' ' = true
          rw [h1, ends_with_char_append]
          rfl
        have hw2 : line_whitespace (add_line_ending l (some n)) (some (add_line_ending n m)) =
            true := by
          unfold line_whitespace
          rw [hg2]
          simp [hends]
        rw [ale_text_of_ws_true _ _ hw2]
        show trim (add_line_ending_text l (some n)) ++ [' '] = _
        rw [h1, trim_append_ws l.text ' ' (by decide)]
      · have hwf : line_whitespace l (some n) = false := Bool.eq_false_iff.mpr hw
        have h1 := ale_text_of_glue_true_ws_false l (some n) hg hwf
        have hboth : ends_with_char l.text ' ' = false ∧
            starts_with_char n.text ' ' = false := by
          unfold line_whitespace at hwf
          rw [hg] at hwf
          simpa using hwf
        have hg2 : line_glue (add_line_ending l (some n)) (some (add_line_ending n m)) =
            true := by rw [line_glue_ale]; exact hg
        have hw2 : line_whitespace (add_line_ending l (some n)) (some (add_line_ending n m)) =
            false := by
          unfold line_whitespace
          rw [hg2]
          have he : ends_with_char (add_line_ending l (some n)).text ' ' = false := by
            show ends_with_char (add_line_ending_text l (some n)) ' ' = false
            rw [h1]
            exact hboth.1
          have hs : starts_with_char (add_line_ending n m).text ' ' = false := by
            show starts_with_char (add_line_ending_text n m) ' ' = false
            exact starts_space_ale n m hn hboth.2
          simp [he, hs]
        rw [ale_text_of_glue_true_ws_false _ _ hg2 hw2]
        show add_line_ending_text l (some n) = add_line_ending_text l (some n)
        rfl
    · have hgf : line_glue l (some n) = false := Bool.eq_false_iff.mpr hg
      have h1 := ale_text_of_glue_false l (some n) hgf
      have hg2 : line_glue (add_line_ending l (some n)) (some (add_line_ending n m)) =
          false := by rw [line_glue_ale]; exact hgf
      rw [ale_text_of_glue_false _ _ hg2]
      show trim (add_line_ending_text l (some n)) ++ ['\n'] = _
      rw [h1, trim_append_ws l.text '\n' (by decide)]
  show ({ add_line_ending l (some n) with
      text := add_line_ending_text (add_line_ending l (some n))
        (some (add_line_ending n m)) } : InternalLine) =
    add_line_ending l (some n)
  rw [htext]
  rfl

/-- Every processed line keeps a nonempty trimmed text when every input
line had one. -/
theorem applyLineEndings_mem_trim_ne (ls : List InternalLine)
    (h : ∀ l ∈ ls, trim l.text ≠ []) :
    ∀ l ∈ applyLineEndings ls, trim l.text ≠ [] := by
  induction ls with
  | nil => intro l hl; cases hl
  | cons a rest ih =>
    intro l hl
    unfold applyLineEndings at hl
    rcases List.mem_cons.mp hl with hl | hl
    · rw [hl]
      exact trim_ale_text_ne_nil a rest.head? (h a (List.mem_cons_self a rest))
    · exact ih (fun x hx => h x (List.mem_cons_of_mem a hx)) l hl

/-- The empty filter keeps every processed line. -/
theorem keptLines_applyLineEndings (ls : List InternalLine)
    (h : ∀ l ∈ ls, trim l.text ≠ []) :
    keptLines (applyLineEndings ls) = applyLineEndings ls := by
  unfold keptLines
  rw [List.filter_eq_self]
  intro a ha
  have := applyLineEndings_mem_trim_ne ls h a ha
  simp only [Bool.not_eq_true', List.isEmpty_eq_false]
  exact this

/-- The lookahead rewrite is idempotent on lines with nonempty trimmed
texts. -/
theorem applyLineEndings_idem (ls : List InternalLine)
    (h : ∀ l ∈ ls, trim l.text ≠ []) :
    applyLineEndings (applyLineEndings ls) = applyLineEndings ls := by
  induction ls with
  | nil => rfl
  | cons a rest ih =>
    have hrest : ∀ l ∈ rest, trim l.text ≠ [] :=
      fun l hl => h l (List.mem_cons_of_mem a hl)
    show applyLineEndings (add_line_ending a rest.head? :: applyLineEndings rest) = _
    unfold applyLineEndings
    rw [ih hrest]
    cases rest with
    | nil => exact congrArg (fun x => [x]) (ale_none_fixed a)
    | cons b rest' =>
      exact congrArg (fun x => x :: applyLineEndings (b :: rest'))
        (ale_processed_fixed a b rest'.head? (hrest b (List.mem_cons_self b rest')))

/-- C8: the text assembly pass is idempotent: running it a second time
on the internal lines a first pass produced changes nothing. -/
theorem C8_assembly_idempotent (from_buffer : List InternalLine) :
    process_internal_lines (process_internal_lines from_buffer) =
      process_internal_lines from_buffer := by
  unfold process_internal_lines
  have hk : ∀ l ∈ keptLines from_buffer, trim l.text ≠ [] := by
    intro l hl
    have := List.of_mem_filter hl
    simpa [Bool.not_eq_true', List.isEmpty_eq_false] using this
  rw [keptLines_applyLineEndings _ hk, applyLineEndings_idem _ hk]

/-- C6 witness: a plain content line is kept by the pre-filter. -/
theorem C6_witness : ("x".toList ∈ remove_empty_and_comment_lines [("x".toList)]) :=
  (C6_filter_amended [("x".toList)] ("x".toList)).mpr (by decide)

/-- C7 witness: a source holding only a comment line has no surviving
content, matching its empty parse error. -/
theorem C7_witness : remove_empty_and_comment_lines (linesOf ("// x".toList)) = [] :=
  (C7_empty_iff_nothing_survives ("// x".toList)).mp rfl

end Inkling
